import Mathlib

/-!
Verification of the nexus log multiplexer (main.go).

The development shallowly embeds the data model and the operations of the
program: the source configuration, the SHA-256 derivation of background
colors, the perceived-lightness computation, the memoizing style cache,
the rendering state machine of the writer loop, and the startup error
handling of main.  Machine integers are modelled as Nat or Int with
explicit reduction modulo powers of two where the code converts.
-/

namespace Nexus

/-- RGB color as stored by the styling primitive: three byte components
produced by uint8 conversion at every construction site. -/
structure RGBColor where
  r : Nat
  g : Nat
  b : Nat
deriving DecidableEq, Repr

/-- Foreground and background pair, mirroring color.RGBStyle built by
NewRGBStyle. -/
structure RGBStyle where
  fg : RGBColor
  bg : RGBColor
deriving DecidableEq, Repr

instance : Inhabited RGBColor := ⟨⟨0, 0, 0⟩⟩

instance : Inhabited RGBStyle := ⟨⟨⟨0, 0, 0⟩, ⟨0, 0, 0⟩⟩⟩

/-- Go uint8 conversion of an int: the value reduced modulo 256. -/
def u8 (x : Int) : Nat := (x % 256).toNat

/-- A configured source, mirroring the source struct of main.go: name,
path, optional explicit background and foreground triplets (Go int
components, unconstrained by parsing), and the truncate flag. -/
structure Source where
  name : String
  path : String
  background : Option (Int × Int × Int)
  foreground : Option (Int × Int × Int)
  truncate : Bool
deriving DecidableEq, Repr

/-! ### SHA-256 (the crypto/sha256 digest used on the source path) -/

/-- Reduction modulo 2 to the 32, the word size of SHA-256. -/
def m32 (x : Nat) : Nat := x % 4294967296

/-- Right rotation of a 32-bit word by n. -/
def rotr32 (n x : Nat) : Nat := m32 (x / 2 ^ n + x % 2 ^ n * 2 ^ (32 - n))

/-- Logical right shift of a 32-bit word by n. -/
def shr32 (n x : Nat) : Nat := x / 2 ^ n

/-- Big sigma-0 compression mix. -/
def bSig0 (x : Nat) : Nat := Nat.xor (rotr32 2 x) (Nat.xor (rotr32 13 x) (rotr32 22 x))

/-- Big sigma-1 compression mix. -/
def bSig1 (x : Nat) : Nat := Nat.xor (rotr32 6 x) (Nat.xor (rotr32 11 x) (rotr32 25 x))

/-- Small sigma-0 schedule mix. -/
def sSig0 (x : Nat) : Nat := Nat.xor (rotr32 7 x) (Nat.xor (rotr32 18 x) (shr32 3 x))

/-- Small sigma-1 schedule mix. -/
def sSig1 (x : Nat) : Nat := Nat.xor (rotr32 17 x) (Nat.xor (rotr32 19 x) (shr32 10 x))

/-- Choice function of the compression round. -/
def ch32 (x y z : Nat) : Nat := Nat.xor (Nat.land x y) (Nat.land (Nat.xor x 4294967295) z)

/-- Majority function of the compression round. -/
def maj32 (x y z : Nat) : Nat :=
  Nat.xor (Nat.land x y) (Nat.xor (Nat.land x z) (Nat.land y z))

/-- The 64 SHA-256 round constants, written in decimal. -/
def sha256K : List Nat :=
  [1116352408, 1899447441, 3049323471, 3921009573, 961987163,
   1508970993, 2453635748, 2870763221, 3624381080, 310598401,
   607225278, 1426881987, 1925078388, 2162078206, 2614888103,
   3248222580, 3835390401, 4022224774, 264347078, 604807628,
   770255983, 1249150122, 1555081692, 1996064986, 2554220882,
   2821834349, 2952996808, 3210313671, 3336571891, 3584528711,
   113926993, 338241895, 666307205, 773529912, 1294757372,
   1396182291, 1695183700, 1986661051, 2177026350, 2456956037,
   2730485921, 2820302411, 3259730800, 3345764771, 3516065817,
   3600352804, 4094571909, 275423344, 430227734, 506948616,
   659060556, 883997877, 958139571, 1322822218, 1537002063,
   1747873779, 1955562222, 2024104815, 2227730452, 2361852424,
   2428436474, 2756734187, 3204031479, 3329325298]

/-- The initial SHA-256 hash state, written in decimal. -/
def sha256Init : List Nat :=
  [1779033703, 3144134277, 1013904242, 2773480762,
   1359893119, 2600822924, 528734635, 1541459225]

/-- One extension step of the message schedule: append the next word
computed from the words 2, 7, 15 and 16 places back. -/
def scheduleStep (acc : List Nat) : List Nat :=
  let n := acc.length
  acc ++ [m32 (sSig1 (acc.getD (n - 2) 0) + acc.getD (n - 7) 0 +
               sSig0 (acc.getD (n - 15) 0) + acc.getD (n - 16) 0)]

/-- Extend a 16-word block to the 64-word message schedule. -/
def schedule (block : List Nat) : List Nat :=
  (List.range 48).foldl (fun acc _ => scheduleStep acc) block

/-- One compression round on the eight-word working state. -/
def compressRound (st : List Nat) (kw : Nat × Nat) : List Nat :=
  match st with
  | [a, b, c, d, e, f, g, h] =>
    let t1 := m32 (h + bSig1 e + ch32 e f g + kw.1 + kw.2)
    let t2 := m32 (bSig0 a + maj32 a b c)
    [m32 (t1 + t2), a, b, c, m32 (d + t1), e, f, g]
  | other => other

/-- Process one 512-bit block: run 64 compression rounds over the
schedule and add the result into the hash state. -/
def processBlock (h : List Nat) (block : List Nat) : List Nat :=
  let st := (sha256K.zip (schedule block)).foldl compressRound h
  (h.zip st).map fun p => m32 (p.1 + p.2)

/-- Big-endian byte decomposition of x into n bytes. -/
def bytesBE (n : Nat) (x : Nat) : List Nat :=
  (List.range n).map fun i => x / 2 ^ (8 * (n - 1 - i)) % 256

/-- SHA-256 padding: the byte 0x80, zeros up to 56 mod 64, and the
bit length as an 8-byte big-endian integer. -/
def padMessage (msg : List Nat) : List Nat :=
  msg ++ [128] ++ List.replicate ((119 - msg.length % 64) % 64) 0 ++ bytesBE 8 (8 * msg.length)

/-- Big-endian 32-bit words of a byte list. -/
def wordsBE : List Nat → List Nat
  | b0 :: b1 :: b2 :: b3 :: rest =>
    (((b0 * 256 + b1) * 256 + b2) * 256 + b3) :: wordsBE rest
  | _ => []

/-- The 64-byte blocks of a padded message. -/
def sha256Blocks (bs : List Nat) : List (List Nat) :=
  (List.range ((bs.length + 63) / 64)).map fun i => ((bs.drop (64 * i)).take 64)

/-- The eight final hash words of a byte message. -/
def sha256Words (msg : List Nat) : List Nat :=
  (sha256Blocks (padMessage msg)).map wordsBE |>.foldl processBlock sha256Init

/-- The 32 digest bytes of a byte message. -/
def sha256Bytes (msg : List Nat) : List Nat :=
  ((sha256Words msg).map (bytesBE 4)).flatten

/-- UTF-8 encoding of one character as bytes. -/
def utf8Bytes (c : Char) : List Nat :=
  let n := c.toNat
  if n < 128 then [n]
  else if n < 2048 then [192 + n / 64, 128 + n % 64]
  else if n < 65536 then [224 + n / 4096, 128 + n / 64 % 64, 128 + n % 64]
  else [240 + n / 262144, 128 + n / 4096 % 64, 128 + n / 64 % 64, 128 + n % 64]

/-- UTF-8 bytes of a string, as Go obtains when converting a string to a
byte slice. -/
def strBytes (s : String) : List Nat := (s.data.map utf8Bytes).flatten

/-- First three digest bytes of the SHA-256 hash of a string, the
derived background triplet of getStyle. -/
def sha256First3 (s : String) : Nat × Nat × Nat :=
  let d := sha256Bytes (strBytes s)
  (d.getD 0 0, d.getD 1 0, d.getD 2 0)

/-! ### Perceived lightness (perceivedLightness in main.go)

The Go code computes over float64; the embedding uses the real numbers,
with the piecewise sRGB linearization and the power functions written
with real exponentiation. -/

/-- The piecewise sRGB linearization applied to each normalized channel:
values at most 0.04045 are divided by 12.92, larger values go through
the 2.4-power gamma curve after offsetting by 0.055 and scaling. -/
noncomputable def linearize (c : ℝ) : ℝ :=
  if c ≤ 0.04045 then c / 12.92 else ((c + 0.055) / 1.055) ^ (2.4 : ℝ)

/-- Luminance: the weighted sum of the linearized channels with weights
0.2126, 0.7152 and 0.0722, the channels being the raw Go ints divided
by 255. -/
noncomputable def luminance (r g b : Int) : ℝ :=
  0.2126 * linearize ((r : ℝ) / 255) + 0.7152 * linearize ((g : ℝ) / 255) +
    0.0722 * linearize ((b : ℝ) / 255)

/-- The linearized value of a single integer channel, the building
block of luminance. -/
noncomputable def nlin (k : Int) : ℝ := linearize ((k : ℝ) / 255)

/-- Conversion of luminance to the lightness scale: linear scaling by
903.3 at or below the threshold 0.008856, the cube-root formula above. -/
noncomputable def lightnessOfY (y : ℝ) : ℝ :=
  if y ≤ 0.008856 then y * 903.3 else y ^ ((1 : ℝ) / 3) * 116 - 16

/-- perceivedLightness of main.go on the raw integer channels. -/
noncomputable def perceivedLightness (r g b : Int) : ℝ :=
  lightnessOfY (luminance r g b)

/-! ### Color assignment (getStyle in main.go) -/

/-- The raw (r, g, b) ints chosen by getStyle before any uint8
conversion: the first three SHA-256 bytes of the path when no explicit
background is configured, the configured triplet otherwise. -/
def chosenRGB (src : Source) : Int × Int × Int :=
  match src.background with
  | none =>
    let h := sha256First3 src.path
    ((h.1 : Int), ((h.2.1 : Int), (h.2.2 : Int)))
  | some c => c

/-- The pure computation performed by getStyle on a cache miss: the
primary color is the chosen triplet after uint8 conversion and doubles
as the style background; the foreground is the configured triplet after
uint8 conversion when present, otherwise black or white according to
the perceived lightness of the raw chosen ints. -/
noncomputable def computeStyle (src : Source) : RGBColor × RGBStyle :=
  let c := chosenRGB src
  let primary : RGBColor := ⟨u8 c.1, u8 c.2.1, u8 c.2.2⟩
  let fg : RGBColor :=
    match src.foreground with
    | none =>
      if 50 ≤ perceivedLightness c.1 c.2.1 c.2.2 then ⟨0, 0, 0⟩ else ⟨255, 255, 255⟩
    | some f => ⟨u8 f.1, u8 f.2.1, u8 f.2.2⟩
  (primary, ⟨fg, primary⟩)

/-- Association-list lookup keyed by decidable equality, modelling the
Go map indexing of the primaries and styles caches. -/
def alookup {α β : Type} [DecidableEq α] (k : α) : List (α × β) → Option β
  | [] => none
  | (k', v) :: rest => if k = k' then some v else alookup k rest

/-- The two memoization maps of the writer, keyed by source. -/
structure StyleCache where
  primaries : List (Source × RGBColor)
  styles : List (Source × RGBStyle)

/-- The caches both start empty. -/
def emptyCache : StyleCache := ⟨[], []⟩

/-- getStyle of main.go: on a hit in the primaries map return the cached
primary and the styles map entry (the Go zero value if absent); on a
miss compute both and extend both maps. -/
noncomputable def getStyle (cache : StyleCache) (src : Source) :
    (RGBColor × RGBStyle) × StyleCache :=
  match alookup src cache.primaries with
  | some primary => ((primary, (alookup src cache.styles).getD default), cache)
  | none =>
    let ps := computeStyle src
    ((ps.1, ps.2), ⟨(src, ps.1) :: cache.primaries, (src, ps.2) :: cache.styles⟩)

/-- A sequence of getStyle invocations threading the cache, collecting
the returned pairs. -/
noncomputable def getStyleRun (cache : StyleCache) :
    List Source → List (RGBColor × RGBStyle) × StyleCache
  | [] => ([], cache)
  | s :: rest =>
    let r := getStyle cache s
    let rr := getStyleRun r.2 rest
    (r.1 :: rr.1, rr.2)

/-- Cache consistency: every cached primary is the computed primary of
its source, and the styles map then holds the computed style. -/
def CacheWF (cache : StyleCache) : Prop :=
  ∀ src p, alookup src cache.primaries = some p →
    p = (computeStyle src).1 ∧ alookup src cache.styles = some (computeStyle src).2

/-- The derived background color of a path: the first three SHA-256
digest bytes as an RGB triplet. -/
def shaRGB (path : String) : RGBColor :=
  ⟨(sha256First3 path).1, (sha256First3 path).2.1, (sha256First3 path).2.2⟩

/-! ### The writer rendering loop -/

/-- One queued record: the producing source and one line of text. -/
structure Record where
  source : Source
  text : String
deriving DecidableEq, Repr

/-- Terminal output events: styled text (style.Printf), colored text
(primary.Printf), plain text (the argument of fmt.Println), and a line
break. -/
inductive OutputEvent where
  | styledText (s : RGBStyle) (text : String)
  | coloredText (c : RGBColor) (text : String)
  | plainText (text : String)
  | lineBreak
deriving DecidableEq, Repr

/-- The mutable state of the writer: the captured terminal size, the
last rendered source, the streak counter and the style caches. -/
structure WriterState where
  width : Nat
  height : Nat
  lastSource : Option Source
  streak : Nat
  cache : StyleCache

/-- The line body printed by the writer: when the truncate flag of the
source is set and the line length is at least the captured width, the
first width minus one characters, otherwise the unmodified line. -/
def renderBody (w : Nat) (src : Source) (text : String) : String :=
  if src.truncate ∧ w ≤ text.length then text.take (w - 1) else text

/-- Processing of one record by the writer loop: a fresh header when the
source differs from the last rendered one, a continuation header when
the incremented streak reaches the terminal height, then the body. -/
noncomputable def writerStep (st : WriterState) (rec : Record) :
    WriterState × List OutputEvent :=
  if st.lastSource ≠ some rec.source then
    let ps := getStyle st.cache rec.source
    (⟨st.width, st.height, some rec.source, 1, ps.2⟩,
      [OutputEvent.styledText ps.1.2 (" " ++ rec.source.name ++ " "),
       OutputEvent.coloredText ps.1.1 (" " ++ rec.source.path),
       OutputEvent.lineBreak,
       OutputEvent.plainText (renderBody st.width rec.source rec.text),
       OutputEvent.lineBreak])
  else if st.streak + 1 = st.height then
    let ps := getStyle st.cache rec.source
    (⟨st.width, st.height, some rec.source, 1, ps.2⟩,
      [OutputEvent.styledText ps.1.2 (" " ++ rec.source.name ++ " (cont) "),
       OutputEvent.coloredText ps.1.1 (" " ++ rec.source.path),
       OutputEvent.lineBreak,
       OutputEvent.plainText (renderBody st.width rec.source rec.text),
       OutputEvent.lineBreak])
  else
    (⟨st.width, st.height, some rec.source, st.streak + 1, st.cache⟩,
      [OutputEvent.plainText (renderBody st.width rec.source rec.text),
       OutputEvent.lineBreak])

/-- The writer processing a list of records, collecting all output. -/
noncomputable def writerRun (st : WriterState) : List Record → WriterState × List OutputEvent
  | [] => (st, [])
  | r :: rs =>
    let step := writerStep st r
    let rest := writerRun step.1 rs
    (rest.1, step.2 ++ rest.2)

/-- One observation of the select loop of the writer: either the stop
signal or the next record from the fan-in queue. -/
inductive WriterInput where
  | stop
  | record (rec : Record)
deriving DecidableEq

/-- The full writer loop over a sequence of channel observations: the
stop signal returns immediately, dropping everything after it. -/
noncomputable def writerLoop (st : WriterState) : List WriterInput → List OutputEvent
  | [] => []
  | WriterInput.stop :: _ => []
  | WriterInput.record r :: rest =>
    (writerStep st r).2 ++ writerLoop (writerStep st r).1 rest

/-- Header events: exactly the styled name badges, printed once per
header. -/
def isHeaderEvent : OutputEvent → Bool
  | OutputEvent.styledText _ _ => true
  | _ => false

/-- The number of headers in an output trace. -/
def countHeaders (evs : List OutputEvent) : Nat := (evs.filter isHeaderEvent).length

/-- The texts of the styled name badges of an output trace, in order. -/
def styledTexts (evs : List OutputEvent) : List String :=
  evs.filterMap fun e =>
    match e with
    | OutputEvent.styledText _ t => some t
    | _ => none

/-! ### Startup and error handling (main and getTerminalSize) -/

/-- The parsed configuration: a list of sources. -/
structure Config where
  sources : List Source

/-- The observable outcome of program startup. -/
inductive MainOutcome where
  | fatalConfig (msg : String)
  | fatalTermSize
  | running (opened : List Source) (diagnostics : Nat)
deriving DecidableEq

/-- The source-opening loop of main: a failing source produces one
diagnostic and is skipped with continue, a succeeding source is
appended to the followed files. -/
def openSources (openOk : Source → Bool) : List Source → List Source × Nat
  | [] => ([], 0)
  | s :: rest =>
    let r := openSources openOk rest
    if openOk s then (s :: r.1, r.2) else (r.1, r.2 + 1)

/-- Startup control flow of main: a configuration load error is fatal
before any source is opened; otherwise all sources are processed by the
opening loop; a failing terminal-size query makes the writer panic and
aborts the whole process; otherwise the program runs. -/
def runMain (cfg : Except String Config) (openOk : Source → Bool)
    (termSize : Option (Nat × Nat)) : MainOutcome :=
  match cfg with
  | Except.error e => MainOutcome.fatalConfig e
  | Except.ok c =>
    let r := openSources openOk c.sources
    match termSize with
    | none => MainOutcome.fatalTermSize
    | some _ => MainOutcome.running r.1 r.2

/-! ### Concrete fixtures used by closed statements -/

/-- A source with explicit background and foreground and no truncation. -/
def srcA : Source := ⟨"a", "/tmp/a.log", some (10, 20, 30), some (1, 2, 3), false⟩

/-- A second source, used when a source change must be exercised. -/
def srcB : Source := ⟨"b", "/tmp/b.log", some (40, 50, 60), some (4, 5, 6), true⟩

/-- A source whose configured background has the component 256, outside
the byte range. -/
def srcBig : Source := ⟨"big", "/tmp/big.log", some (256, 0, 0), some (0, 0, 0), false⟩

/-- A source with an out-of-range background on every channel and no
configured foreground. -/
def srcOutOfRange : Source := ⟨"oor", "/tmp/oor.log", some (256, 256, 256), none, false⟩

/-- A source with an explicit black background and no configured
foreground. -/
def srcDark : Source := ⟨"dark", "/tmp/dark.log", some (0, 0, 0), none, false⟩

/-- A source with no configured background, forcing the hash-derived
color. -/
def srcHash : Source := ⟨"hash", "/var/log/app.log", none, some (0, 0, 0), false⟩

/-- An initial writer state with terminal width 80 and height 3. -/
def st0 : WriterState := ⟨80, 3, none, 0, emptyCache⟩

/-! ### Lemmas on the writer step -/

theorem writerStep_new (st : WriterState) (rec : Record)
    (h : st.lastSource ≠ some rec.source) :
    writerStep st rec =
      (⟨st.width, st.height, some rec.source, 1, (getStyle st.cache rec.source).2⟩,
       [OutputEvent.styledText (getStyle st.cache rec.source).1.2
          (" " ++ rec.source.name ++ " "),
        OutputEvent.coloredText (getStyle st.cache rec.source).1.1
          (" " ++ rec.source.path),
        OutputEvent.lineBreak,
        OutputEvent.plainText (renderBody st.width rec.source rec.text),
        OutputEvent.lineBreak]) := by
  simp [writerStep, h]

theorem writerStep_cont (st : WriterState) (rec : Record)
    (h : st.lastSource = some rec.source) (h2 : st.streak + 1 = st.height) :
    writerStep st rec =
      (⟨st.width, st.height, some rec.source, 1, (getStyle st.cache rec.source).2⟩,
       [OutputEvent.styledText (getStyle st.cache rec.source).1.2
          (" " ++ rec.source.name ++ " (cont) "),
        OutputEvent.coloredText (getStyle st.cache rec.source).1.1
          (" " ++ rec.source.path),
        OutputEvent.lineBreak,
        OutputEvent.plainText (renderBody st.width rec.source rec.text),
        OutputEvent.lineBreak]) := by
  simp [writerStep, h, h2]

theorem writerStep_plain (st : WriterState) (rec : Record)
    (h : st.lastSource = some rec.source) (h2 : st.streak + 1 ≠ st.height) :
    writerStep st rec =
      (⟨st.width, st.height, some rec.source, st.streak + 1, st.cache⟩,
       [OutputEvent.plainText (renderBody st.width rec.source rec.text),
        OutputEvent.lineBreak]) := by
  simp [writerStep, h, h2]

theorem writerStep_lastSource (st : WriterState) (rec : Record) :
    ((writerStep st rec).1).lastSource = some rec.source := by
  unfold writerStep
  by_cases h : st.lastSource ≠ some rec.source
  · simp [h]
  · by_cases h2 : st.streak + 1 = st.height <;> simp [h, h2]

theorem writerRun_nil (st : WriterState) : writerRun st [] = (st, []) := rfl

theorem writerRun_cons (st : WriterState) (r : Record) (rs : List Record) :
    writerRun st (r :: rs) =
      ((writerRun (writerStep st r).1 rs).1,
       (writerStep st r).2 ++ (writerRun (writerStep st r).1 rs).2) := rfl

theorem styledTexts_append (a b : List OutputEvent) :
    styledTexts (a ++ b) = styledTexts a ++ styledTexts b := by
  simp [styledTexts]

theorem countHeaders_eq_length_styledTexts (evs : List OutputEvent) :
    countHeaders evs = (styledTexts evs).length := by
  induction evs with
  | nil => rfl
  | cons e rest ih => cases e <;> simp [countHeaders, styledTexts, isHeaderEvent] at ih ⊢ <;>
      exact ih

/-- Streak run lemma: from a state already rendering a source, with the
streak between 1 and height minus one, a run of records from that same
source prints continuation headers exactly when the streak counter
reaches the height. -/
theorem contRun (H : Nat) (hH : 2 ≤ H) (texts : List String) :
    ∀ (st : WriterState) (src : Source),
      st.height = H → st.lastSource = some src → 1 ≤ st.streak → st.streak ≤ H - 1 →
      styledTexts (writerRun st (texts.map fun t => ⟨src, t⟩)).2 =
        List.replicate ((st.streak - 1 + texts.length) / (H - 1))
          (" " ++ src.name ++ " (cont) ") := by
  induction texts with
  | nil =>
    intro st src hh hl h1 h2
    have : (st.streak - 1) / (H - 1) = 0 := Nat.div_eq_of_lt (by omega)
    simp [writerRun, styledTexts, this]
  | cons t ts ih =>
    intro st src hh hl h1 h2
    rw [List.map_cons, writerRun_cons]
    by_cases hcont : st.streak + 1 = st.height
    · rw [writerStep_cont st ⟨src, t⟩ hl hcont]
      rw [styledTexts_append]
      have hrec := ih ⟨st.width, st.height, some src, 1, (getStyle st.cache src).2⟩ src
        hh rfl (show 1 ≤ 1 by omega) (show 1 ≤ H - 1 by omega)
      simp only at hrec
      rw [hrec]
      have harg : st.streak - 1 + (t :: ts).length = ts.length + (H - 1) := by
        simp only [List.length_cons]; omega
      rw [harg, Nat.add_div_right _ (by omega : 0 < H - 1)]
      simp [styledTexts, List.replicate_succ]
    · rw [writerStep_plain st ⟨src, t⟩ hl hcont]
      rw [styledTexts_append]
      have hrec := ih ⟨st.width, st.height, some src, st.streak + 1, st.cache⟩ src
        hh rfl (show 1 ≤ st.streak + 1 by omega) (show st.streak + 1 ≤ H - 1 by omega)
      simp only at hrec
      rw [hrec]
      have harg : st.streak - 1 + (t :: ts).length = st.streak + 1 - 1 + ts.length := by
        simp only [List.length_cons]; omega
      rw [harg]
      simp [styledTexts]

/-- The full run from a state not currently rendering the source: one
fresh header, then continuation headers every height minus one records. -/
theorem cadenceRun (H N : Nat) (hH : 2 ≤ H) (st : WriterState) (src : Source)
    (texts : List String) (hlen : texts.length = N) (hN : 1 ≤ N)
    (hheight : st.height = H) (hlast : st.lastSource ≠ some src) :
    styledTexts (writerRun st (texts.map fun t => ⟨src, t⟩)).2 =
      (" " ++ src.name ++ " ") ::
        List.replicate ((N - 1) / (H - 1)) (" " ++ src.name ++ " (cont) ") := by
  cases texts with
  | nil => simp at hlen; omega
  | cons t ts =>
    rw [List.map_cons, writerRun_cons, writerStep_new st ⟨src, t⟩ hlast, styledTexts_append]
    have hrec := contRun H hH ts
      ⟨st.width, st.height, some src, 1, (getStyle st.cache src).2⟩ src
      hheight rfl (show 1 ≤ 1 by omega) (show 1 ≤ H - 1 by omega)
    simp only at hrec
    rw [hrec]
    have harg : 1 - 1 + ts.length = N - 1 := by
      simp only [List.length_cons] at hlen; omega
    rw [harg]
    simp [styledTexts]

/-! ### Lemmas on the style cache -/

theorem cacheWF_empty : CacheWF emptyCache := by
  intro src p h
  simp [alookup, emptyCache] at h

theorem getStyle_fst_of_wf (cache : StyleCache) (src : Source) (h : CacheWF cache) :
    (getStyle cache src).1 = computeStyle src := by
  rcases e : alookup src cache.primaries with _ | p
  · simp [getStyle, e]
  · obtain ⟨h1, h2⟩ := h src p e
    simp [getStyle, e, h2, h1]

theorem getStyle_wf (cache : StyleCache) (src : Source) (h : CacheWF cache) :
    CacheWF (getStyle cache src).2 := by
  rcases e : alookup src cache.primaries with _ | p
  · intro s q hq
    simp only [getStyle, e] at hq ⊢
    simp only [alookup] at hq ⊢
    by_cases hs : s = src
    · subst hs
      rw [if_pos rfl] at hq
      rw [if_pos rfl]
      exact ⟨(Option.some_inj.mp hq).symm, rfl⟩
    · rw [if_neg hs] at hq
      rw [if_neg hs]
      exact h s q hq
  · intro s q hq
    simp only [getStyle, e] at hq ⊢
    exact h s q hq

theorem getStyleRun_spec (srcs : List Source) :
    ∀ cache, CacheWF cache →
      (getStyleRun cache srcs).1 = srcs.map computeStyle ∧
      CacheWF (getStyleRun cache srcs).2 := by
  induction srcs with
  | nil => intro cache h; exact ⟨rfl, h⟩
  | cons s rest ih =>
    intro cache h
    obtain ⟨h1, h2⟩ := ih (getStyle cache s).2 (getStyle_wf cache s h)
    refine ⟨?_, h2⟩
    show (getStyle cache s).1 :: (getStyleRun (getStyle cache s).2 rest).1 =
      computeStyle s :: rest.map computeStyle
    rw [getStyle_fst_of_wf cache s h, h1]

/-! ### Lemmas on startup -/

theorem openSources_eq (openOk : Source → Bool) (l : List Source) :
    openSources openOk l =
      (l.filter openOk, (l.filter fun s => ! openOk s).length) := by
  induction l with
  | nil => rfl
  | cons s rest ih =>
    cases h : openOk s <;> simp [openSources, ih, List.filter_cons, h]

/-! ### SHA-256 digest byte bounds -/

theorem bytesBE_lt (n x : Nat) : ∀ y ∈ bytesBE n x, y < 256 := by
  intro y hy
  simp only [bytesBE, List.mem_map, List.mem_range] at hy
  obtain ⟨i, _, rfl⟩ := hy
  exact Nat.mod_lt _ (by norm_num)

theorem sha256Bytes_lt (m : List Nat) : ∀ y ∈ sha256Bytes m, y < 256 := by
  intro y hy
  simp only [sha256Bytes, List.mem_flatten, List.mem_map] at hy
  obtain ⟨l, ⟨w, _, rfl⟩, hy⟩ := hy
  exact bytesBE_lt 4 w y hy

theorem getD_lt_256 (l : List Nat) (h : ∀ y ∈ l, y < 256) (i : Nat) : l.getD i 0 < 256 := by
  rw [List.getD_eq_getElem?_getD]
  rcases e : l[i]? with _ | x
  · simp
  · simp only [Option.getD_some]
    exact h x (List.getElem?_mem e)

theorem sha256First3_lt (s : String) :
    (sha256First3 s).1 < 256 ∧ (sha256First3 s).2.1 < 256 ∧ (sha256First3 s).2.2 < 256 := by
  refine ⟨?_, ?_, ?_⟩ <;>
    exact getD_lt_256 _ (sha256Bytes_lt (strBytes s)) _

theorem u8_ofNat {n : Nat} (h : n < 256) : u8 (n : Int) = n := by
  simp only [u8]
  omega

/-! ### Lemmas on computeStyle -/

theorem computeStyle_primary (src : Source) :
    (computeStyle src).1 =
      ⟨u8 (chosenRGB src).1, u8 (chosenRGB src).2.1, u8 (chosenRGB src).2.2⟩ := rfl

theorem computeStyle_bg (src : Source) :
    (computeStyle src).2.bg = (computeStyle src).1 := rfl

theorem computeStyle_fg_none (src : Source) (h : src.foreground = none) :
    (computeStyle src).2.fg =
      if 50 ≤ perceivedLightness (chosenRGB src).1 (chosenRGB src).2.1 (chosenRGB src).2.2
      then ⟨0, 0, 0⟩ else ⟨255, 255, 255⟩ := by
  simp [computeStyle, h]

theorem computeStyle_fg_some (src : Source) (f : Int × Int × Int)
    (h : src.foreground = some f) :
    (computeStyle src).2.fg = ⟨u8 f.1, u8 f.2.1, u8 f.2.2⟩ := by
  simp [computeStyle, h]

theorem chosenRGB_none (src : Source) (h : src.background = none) :
    chosenRGB src =
      (((sha256First3 src.path).1 : Int),
       (((sha256First3 src.path).2.1 : Int), ((sha256First3 src.path).2.2 : Int))) := by
  simp [chosenRGB, h]

theorem chosenRGB_some (src : Source) (c : Int × Int × Int) (h : src.background = some c) :
    chosenRGB src = c := by
  simp [chosenRGB, h]

/-! ### Lemmas on the linearized channels -/

theorem luminance_eq_nlin (r g b : Int) :
    luminance r g b = 0.2126 * nlin r + 0.7152 * nlin g + 0.0722 * nlin b := rfl

theorem nlin_linear {k : Int} (hk : k ≤ 10) : nlin k = (k : ℝ) / 255 / 12.92 := by
  have hk' : (k : ℝ) ≤ 10 := by exact_mod_cast hk
  simp only [nlin, linearize]
  rw [if_pos (by linarith : ((k : ℝ)) / 255 ≤ 0.04045)]

theorem nlin_power {k : Int} (hk : 11 ≤ k) :
    nlin k = (((k : ℝ) / 255 + 0.055) / 1.055) ^ (2.4 : ℝ) := by
  have hk' : (11 : ℝ) ≤ (k : ℝ) := by exact_mod_cast hk
  simp only [nlin, linearize]
  rw [if_neg (by push_neg; linarith : ¬ ((k : ℝ)) / 255 ≤ 0.04045)]

/-- Compare a rational with a 2.4 power through fifth and twelfth
powers. -/
theorem rpow24_ge {q a : ℝ} (_hq : 0 ≤ q) (ha : 0 ≤ a)
    (h : q ^ (5 : ℕ) ≤ a ^ (12 : ℕ)) : q ≤ a ^ (2.4 : ℝ) := by
  have key : (a ^ (2.4 : ℝ)) ^ (5 : ℕ) = a ^ (12 : ℕ) := by
    rw [← Real.rpow_natCast (a ^ (2.4 : ℝ)) 5, ← Real.rpow_mul ha]
    have : (2.4 : ℝ) * ((5 : ℕ) : ℝ) = ((12 : ℕ) : ℝ) := by norm_num
    rw [this, Real.rpow_natCast]
  have h2 : q ^ (5 : ℕ) ≤ (a ^ (2.4 : ℝ)) ^ (5 : ℕ) := by rw [key]; exact h
  refine le_of_pow_le_pow_left₀ ?_ (Real.rpow_nonneg ha _) h2
  norm_num

/-- Compare a rational with a 1.4 power through fifth and seventh
powers. -/
theorem rpow14_ge {q a : ℝ} (_hq : 0 ≤ q) (ha : 0 ≤ a)
    (h : q ^ (5 : ℕ) ≤ a ^ (7 : ℕ)) : q ≤ a ^ (1.4 : ℝ) := by
  have key : (a ^ (1.4 : ℝ)) ^ (5 : ℕ) = a ^ (7 : ℕ) := by
    rw [← Real.rpow_natCast (a ^ (1.4 : ℝ)) 5, ← Real.rpow_mul ha]
    have : (1.4 : ℝ) * ((5 : ℕ) : ℝ) = ((7 : ℕ) : ℝ) := by norm_num
    rw [this, Real.rpow_natCast]
  have h2 : q ^ (5 : ℕ) ≤ (a ^ (1.4 : ℝ)) ^ (5 : ℕ) := by rw [key]; exact h
  refine le_of_pow_le_pow_left₀ ?_ (Real.rpow_nonneg ha _) h2
  norm_num

/-- The linearization step from channel 10 to channel 11 is at least
the linear-branch step 5/16473. -/
theorem nlin_step_ten : nlin (10 : Int) + 5 / 16473 ≤ nlin 11 := by
  rw [nlin_linear (by norm_num), nlin_power (by norm_num)]
  have hA : ((((11 : Int) : ℝ)) / 255 + 0.055) / 1.055 = 1001 / 10761 := by norm_num
  rw [hA]
  have h := rpow24_ge (q := 55 / 16473) (a := 1001 / 10761)
    (by norm_num) (by norm_num) (by norm_num)
  have h10 : (((10 : Int) : ℝ)) / 255 / 12.92 = 50 / 16473 := by norm_num
  rw [h10]
  linarith

/-- In the power branch every unit channel step increases the
linearization by at least 5/16473, by the Bernoulli inequality. -/
theorem nlin_step_power {k : Int} (hk : 11 ≤ k) : nlin k + 5 / 16473 ≤ nlin (k + 1) := by
  have hk1 : (11 : Int) ≤ k + 1 := by omega
  have hkr : (11 : ℝ) ≤ (k : ℝ) := by exact_mod_cast hk
  rw [nlin_power hk, nlin_power hk1]
  have hcast : ((k + 1 : Int) : ℝ) = (k : ℝ) + 1 := by push_cast; ring
  rw [hcast]
  set B : ℝ := ((k : ℝ) / 255 + 0.055) / 1.055 with hB
  have hB11 : (1001 : ℝ) / 10761 ≤ B := by
    rw [hB]
    have e : ((11 : ℝ) / 255 + 0.055) / 1.055 = 1001 / 10761 := by norm_num
    rw [← e]
    gcongr
  have hB0 : (0 : ℝ) < B := lt_of_lt_of_le (by norm_num) hB11
  have hBnext : (((k : ℝ) + 1) / 255 + 0.055) / 1.055 = B + 40 / 10761 := by
    rw [hB]
    field_simp
    ring
  rw [hBnext]
  set s : ℝ := (40 / 10761) / B with hs
  have hs0 : (0 : ℝ) ≤ s := by positivity
  have hBs : B + 40 / 10761 = B * (1 + s) := by
    rw [hs]
    field_simp
    ring
  have hbern : 1 + 2.4 * s ≤ (1 + s) ^ (2.4 : ℝ) :=
    one_add_mul_self_le_rpow_one_add (by linarith) (by norm_num)
  have hmul : B ^ (2.4 : ℝ) * (1 + 2.4 * s) ≤ B ^ (2.4 : ℝ) * (1 + s) ^ (2.4 : ℝ) :=
    mul_le_mul_of_nonneg_left hbern (Real.rpow_nonneg hB0.le _)
  have hprod : B ^ (2.4 : ℝ) * (1 + s) ^ (2.4 : ℝ) = (B + 40 / 10761) ^ (2.4 : ℝ) := by
    rw [← Real.mul_rpow hB0.le (by linarith : (0 : ℝ) ≤ 1 + s), ← hBs]
  have hB14 : B ^ (2.4 : ℝ) = B ^ (1.4 : ℝ) * B := by
    have h24 : (2.4 : ℝ) = 1.4 + 1 := by norm_num
    rw [h24, Real.rpow_add hB0, Real.rpow_one]
  have h14 : (341 / 10000 : ℝ) ≤ B ^ (1.4 : ℝ) := by
    have h1 : ((1001 : ℝ) / 10761) ^ (1.4 : ℝ) ≤ B ^ (1.4 : ℝ) :=
      Real.rpow_le_rpow (by norm_num) hB11 (by norm_num)
    have h2 : (341 / 10000 : ℝ) ≤ ((1001 : ℝ) / 10761) ^ (1.4 : ℝ) :=
      rpow14_ge (by norm_num) (by norm_num) (by norm_num)
    linarith
  have hterm : (5 : ℝ) / 16473 ≤ B ^ (2.4 : ℝ) * (2.4 * s) := by
    rw [hB14, hs]
    have hexp : B ^ (1.4 : ℝ) * B * (2.4 * ((40 : ℝ) / 10761 / B)) =
        2.4 * (40 / 10761) * B ^ (1.4 : ℝ) := by
      field_simp
      ring
    rw [hexp]
    nlinarith [h14]
  calc B ^ (2.4 : ℝ) + 5 / 16473
      ≤ B ^ (2.4 : ℝ) + B ^ (2.4 : ℝ) * (2.4 * s) := by linarith
    _ = B ^ (2.4 : ℝ) * (1 + 2.4 * s) := by ring
    _ ≤ B ^ (2.4 : ℝ) * (1 + s) ^ (2.4 : ℝ) := hmul
    _ = (B + 40 / 10761) ^ (2.4 : ℝ) := hprod

/-- In the linear branch every unit channel step increases the
linearization by exactly 5/16473. -/
theorem nlin_step_linear {k : Int} (hk : k ≤ 9) : nlin k + 5 / 16473 ≤ nlin (k + 1) := by
  have hk1 : k + 1 ≤ 10 := by omega
  rw [nlin_linear (show k ≤ 10 by omega), nlin_linear hk1]
  have hcast : ((k + 1 : Int) : ℝ) = (k : ℝ) + 1 := by push_cast; ring
  rw [hcast]
  have key : ((k : ℝ) + 1) / 255 / 12.92 = (k : ℝ) / 255 / 12.92 + 5 / 16473 := by
    field_simp
    ring
  rw [key]

/-- Every unit channel step increases the linearization by at least
5/16473. -/
theorem nlin_step (k : Int) : nlin k + 5 / 16473 ≤ nlin (k + 1) := by
  rcases lt_trichotomy k 10 with h | h | h
  · exact nlin_step_linear (by omega)
  · subst h
    have h11 : (10 : Int) + 1 = 11 := by norm_num
    rw [h11]
    exact nlin_step_ten
  · exact nlin_step_power (by omega)

/-- The linearization is monotone over the integer channel grid. -/
theorem nlin_mono : ∀ {k j : Int}, k ≤ j → nlin k ≤ nlin j := by
  intro k j hkj
  by_cases hj : j ≤ 10
  · have hk : k ≤ 10 := le_trans hkj hj
    rw [nlin_linear hk, nlin_linear hj]
    have hc : (k : ℝ) ≤ (j : ℝ) := by exact_mod_cast hkj
    gcongr
  · push_neg at hj
    have hj' : (11 : Int) ≤ j := by omega
    by_cases hk : (11 : Int) ≤ k
    · rw [nlin_power hk, nlin_power hj']
      have hc : (k : ℝ) ≤ (j : ℝ) := by exact_mod_cast hkj
      have h11 : (11 : ℝ) ≤ (k : ℝ) := by exact_mod_cast hk
      have hb1 : (0 : ℝ) ≤ ((k : ℝ) / 255 + 0.055) / 1.055 := by
        norm_num
        linarith
      have hb2 : ((k : ℝ) / 255 + 0.055) / 1.055 ≤ ((j : ℝ) / 255 + 0.055) / 1.055 := by
        gcongr
      exact Real.rpow_le_rpow hb1 hb2 (by norm_num)
    · push_neg at hk
      have hk' : k ≤ 10 := by omega
      have step1 : nlin k ≤ nlin 10 := by
        rw [nlin_linear hk', nlin_linear (show (10 : Int) ≤ 10 by norm_num)]
        have hc : (k : ℝ) ≤ ((10 : Int) : ℝ) := by exact_mod_cast hk'
        gcongr
      have step2 : nlin 10 ≤ nlin 11 := by linarith [nlin_step_ten]
      have step3 : nlin 11 ≤ nlin j := by
        rw [nlin_power (show (11 : Int) ≤ 11 by norm_num), nlin_power hj']
        have hc : ((11 : Int) : ℝ) ≤ (j : ℝ) := by exact_mod_cast hj'
        have hb1 : (0 : ℝ) ≤ (((11 : Int) : ℝ) / 255 + 0.055) / 1.055 := by positivity
        have hb2 : (((11 : Int) : ℝ) / 255 + 0.055) / 1.055 ≤
            ((j : ℝ) / 255 + 0.055) / 1.055 := by gcongr
        exact Real.rpow_le_rpow hb1 hb2 (by norm_num)
      linarith

/-- A strict channel increase raises the linearization by at least
5/16473. -/
theorem nlin_gap {k j : Int} (h : k < j) : nlin k + 5 / 16473 ≤ nlin j :=
  le_trans (nlin_step k) (nlin_mono (by omega))

theorem nlin_zero : nlin 0 = 0 := by
  rw [nlin_linear (by norm_num)]
  norm_num

theorem nlin_255 : nlin 255 = 1 := by
  rw [nlin_power (by norm_num)]
  have e : ((((255 : Int) : ℝ)) / 255 + 0.055) / 1.055 = 1 := by norm_num
  rw [e, Real.one_rpow]

theorem nlin_256_ge : 1 ≤ nlin 256 := by
  rw [nlin_power (by norm_num)]
  have hbase : (1 : ℝ) ≤ ((((256 : Int) : ℝ)) / 255 + 0.055) / 1.055 := by norm_num
  calc (1 : ℝ) = 1 ^ (2.4 : ℝ) := (Real.one_rpow _).symm
    _ ≤ _ := Real.rpow_le_rpow (by norm_num) hbase (by norm_num)

/-! ### Perceived lightness values and monotonicity -/

theorem luminance_black : luminance 0 0 0 = 0 := by
  rw [luminance_eq_nlin, nlin_zero]
  norm_num

theorem pl_black : perceivedLightness 0 0 0 = 0 := by
  rw [perceivedLightness, luminance_black, lightnessOfY]
  rw [if_pos (by norm_num)]
  norm_num

theorem pl_white : perceivedLightness 255 255 255 = 100 := by
  have hl : luminance 255 255 255 = 1 := by
    rw [luminance_eq_nlin, nlin_255]
    norm_num
  rw [perceivedLightness, hl, lightnessOfY, if_neg (by norm_num), Real.one_rpow]
  norm_num

theorem pl_256 : 50 ≤ perceivedLightness 256 256 256 := by
  have hl : 1 ≤ luminance 256 256 256 := by
    have e : luminance 256 256 256 = nlin 256 := by
      rw [luminance_eq_nlin]
      ring
    rw [e]
    exact nlin_256_ge
  rw [perceivedLightness, lightnessOfY, if_neg (by push_neg; norm_num; linarith)]
  have h3 : (1 : ℝ) ≤ (luminance 256 256 256) ^ ((1 : ℝ) / 3) := by
    calc (1 : ℝ) = 1 ^ ((1 : ℝ) / 3) := (Real.one_rpow _).symm
      _ ≤ _ := Real.rpow_le_rpow (by norm_num) hl (by norm_num)
  nlinarith [h3]

/-- A cube-root lower bound from a cubed rational bound. -/
theorem cbrt_ge {c z : ℝ} (hc : 0 ≤ c) (h : c ^ (3 : ℕ) ≤ z) : c ≤ z ^ ((1 : ℝ) / 3) := by
  have h1 : (c ^ (3 : ℕ) : ℝ) ^ ((1 : ℝ) / 3) ≤ z ^ ((1 : ℝ) / 3) :=
    Real.rpow_le_rpow (by positivity) h (by norm_num)
  have h2 : (c ^ (3 : ℕ) : ℝ) ^ ((1 : ℝ) / 3) = c := by
    rw [← Real.rpow_natCast c 3, ← Real.rpow_mul hc]
    have e : ((3 : ℕ) : ℝ) * ((1 : ℝ) / 3) = 1 := by norm_num
    rw [e, Real.rpow_one]
  rwa [h2] at h1

theorem luminance_mono {r g b r' g' b' : Int} (hr : r ≤ r') (hg : g ≤ g') (hb : b ≤ b') :
    luminance r g b ≤ luminance r' g' b' := by
  rw [luminance_eq_nlin, luminance_eq_nlin]
  have h1 := nlin_mono hr
  have h2 := nlin_mono hg
  have h3 := nlin_mono hb
  norm_num
  linarith

/-- Two integer triplets ordered componentwise with strictly larger
luminance are separated by at least 1/50000, since some channel
strictly increases and the smallest weighted channel step is
0.0722 times 5/16473. -/
theorem luminance_gap {r g b r' g' b' : Int} (hr : r ≤ r') (hg : g ≤ g') (hb : b ≤ b')
    (hlt : luminance r g b < luminance r' g' b') :
    luminance r g b + 1 / 50000 ≤ luminance r' g' b' := by
  have hstrict : r < r' ∨ g < g' ∨ b < b' := by
    by_contra hcon
    push_neg at hcon
    obtain ⟨h1, h2, h3⟩ := hcon
    have e1 : r = r' := le_antisymm hr h1
    have e2 : g = g' := le_antisymm hg h2
    have e3 : b = b' := le_antisymm hb h3
    rw [e1, e2, e3] at hlt
    exact absurd hlt (lt_irrefl _)
  rw [luminance_eq_nlin, luminance_eq_nlin]
  rcases hstrict with h | h | h
  · have hgap := nlin_gap h
    have h2 := nlin_mono hg
    have h3 := nlin_mono hb
    norm_num
    linarith
  · have hgap := nlin_gap h
    have h2 := nlin_mono hr
    have h3 := nlin_mono hb
    norm_num
    linarith
  · have hgap := nlin_gap h
    have h2 := nlin_mono hr
    have h3 := nlin_mono hg
    norm_num
    linarith

/-- Monotonicity of perceived lightness over integer channel triplets.
The lightness conversion is piecewise; across the threshold the
integer-grid luminance gap absorbs the small mismatch of the rounded
CIE constants 903.3 and 0.008856. -/
theorem pl_mono {r g b r' g' b' : Int} (hr : r ≤ r') (hg : g ≤ g') (hb : b ≤ b') :
    perceivedLightness r g b ≤ perceivedLightness r' g' b' := by
  have hyz : luminance r g b ≤ luminance r' g' b' := luminance_mono hr hg hb
  rw [perceivedLightness, perceivedLightness, lightnessOfY, lightnessOfY]
  by_cases hz : luminance r' g' b' ≤ 0.008856
  · rw [if_pos (le_trans hyz hz), if_pos hz]
    norm_num
    linarith
  · rw [if_neg hz]
    push_neg at hz
    by_cases hy : luminance r g b ≤ 0.008856
    · rw [if_pos hy]
      have hgap : luminance r g b + 1 / 50000 ≤ luminance r' g' b' :=
        luminance_gap hr hg hb (by linarith)
      by_cases hz2 : luminance r' g' b' ≤ 0.008856 + 1 / 100000
      · have hy2 : luminance r g b ≤ 0.008856 - 1 / 100000 := by linarith
        have hcube : (10341 / 50000 : ℝ) ^ (3 : ℕ) ≤ luminance r' g' b' := by
          have e : (10341 / 50000 : ℝ) ^ (3 : ℕ) ≤ 0.008856 := by norm_num
          linarith
        have hc1 : (10341 / 50000 : ℝ) ≤ (luminance r' g' b') ^ ((1 : ℝ) / 3) :=
          cbrt_ge (by norm_num) hcube
        norm_num at hy2 ⊢
        linarith
      · push_neg at hz2
        have hcube : (1034467 / 5000000 : ℝ) ^ (3 : ℕ) ≤ luminance r' g' b' := by
          have e : (1034467 / 5000000 : ℝ) ^ (3 : ℕ) ≤ 0.008856 + 1 / 100000 := by norm_num
          linarith
        have hc2 : (1034467 / 5000000 : ℝ) ≤ (luminance r' g' b') ^ ((1 : ℝ) / 3) :=
          cbrt_ge (by norm_num) hcube
        norm_num at hy ⊢
        linarith
    · rw [if_neg hy]
      push_neg at hy
      have h0 : (0 : ℝ) ≤ luminance r g b := by
        norm_num at hy
        linarith
      have hroot := Real.rpow_le_rpow h0 hyz (by norm_num : (0 : ℝ) ≤ 1 / 3)
      linarith

/-! ## Claim theorems -/

/-- C1, counterexample: with captured terminal height 3, a run of 7
records from a single source prints 4 headers, at records 1, 3, 5 and
7, because the streak restarts at 1 on the very record that prints a
header; the claimed count is the ceiling of 7/3, which is 3. -/
theorem claim1_counterexample :
    countHeaders (writerRun st0 (List.replicate 7 ⟨srcA, "x"⟩)).2 = 4 ∧
    (7 + 3 - 1) / 3 = 3 ∧
    countHeaders (writerRun st0 (List.replicate 7 ⟨srcA, "x"⟩)).2 ≠ (7 + 3 - 1) / 3 :=
  ⟨by decide, by norm_num, by decide⟩

/-- C1, amended: for terminal height H at least 2, a run of N
consecutive records from one source with no interleaving prints a
header exactly 1 + (N−1)/(H−1) times: once at the first record and then
once every H−1 records, each header after the first using the "(cont)"
suffixed name; for H = 3 and N = 7 headers fall at records 1, 3, 5
and 7. -/
theorem claim1_amended (H N : Nat) (st : WriterState) (src : Source) (texts : List String)
    (hH : 2 ≤ H) (hlen : texts.length = N) (hN : 1 ≤ N)
    (hheight : st.height = H) (hlast : st.lastSource ≠ some src) :
    styledTexts (writerRun st (texts.map fun t => ⟨src, t⟩)).2 =
      (" " ++ src.name ++ " ") ::
        List.replicate ((N - 1) / (H - 1)) (" " ++ src.name ++ " (cont) ") ∧
    countHeaders (writerRun st (texts.map fun t => ⟨src, t⟩)).2 = 1 + (N - 1) / (H - 1) := by
  have h := cadenceRun H N hH st src texts hlen hN hheight hlast
  refine ⟨h, ?_⟩
  rw [countHeaders_eq_length_styledTexts, h]
  simp
  omega

/-- Witness for the amended C1 at height 3 with 7 records. -/
theorem claim1_amended_witness :
    (2 ≤ 3 ∧ (List.replicate 7 "x").length = 7 ∧ 1 ≤ 7 ∧ st0.height = 3 ∧
      st0.lastSource ≠ some srcA) ∧
    styledTexts (writerRun st0 ((List.replicate 7 "x").map fun t => ⟨srcA, t⟩)).2 =
      (" " ++ srcA.name ++ " ") ::
        List.replicate ((7 - 1) / (3 - 1)) (" " ++ srcA.name ++ " (cont) ") := by
  refine ⟨⟨by norm_num, by decide, by norm_num, rfl, by decide⟩, ?_⟩
  exact (claim1_amended 3 7 st0 srcA (List.replicate 7 "x") (by norm_num) (by decide)
    (by norm_num) rfl (by decide)).1

/-- C2: with the truncate flag set and captured width W (at least 1), a
line of length at least W renders as exactly its first W−1 characters;
a shorter line renders unmodified; with the flag unset every line
renders unmodified; and every processed record prints its body followed
by a line break. -/
theorem claim2_truncation (st : WriterState) (rec : Record) (hw : 1 ≤ st.width) :
    (rec.source.truncate = true → st.width ≤ rec.text.length →
      renderBody st.width rec.source rec.text = rec.text.take (st.width - 1)) ∧
    (rec.text.length < st.width → renderBody st.width rec.source rec.text = rec.text) ∧
    (rec.source.truncate = false → renderBody st.width rec.source rec.text = rec.text) ∧
    (∃ pre, (writerStep st rec).2 =
      pre ++ [OutputEvent.plainText (renderBody st.width rec.source rec.text),
              OutputEvent.lineBreak]) := by
  refine ⟨?_, ?_, ?_, ?_⟩
  · intro ht hlen
    simp [renderBody, ht, hlen]
  · intro hlen
    simp only [renderBody]
    rw [if_neg]
    rintro ⟨-, hge⟩
    omega
  · intro ht
    simp [renderBody, ht]
  · by_cases h : st.lastSource ≠ some rec.source
    · exact ⟨[OutputEvent.styledText (getStyle st.cache rec.source).1.2
          (" " ++ rec.source.name ++ " "),
        OutputEvent.coloredText (getStyle st.cache rec.source).1.1
          (" " ++ rec.source.path),
        OutputEvent.lineBreak],
        by rw [writerStep_new st rec h]; rfl⟩
    · push_neg at h
      by_cases h2 : st.streak + 1 = st.height
      · exact ⟨[OutputEvent.styledText (getStyle st.cache rec.source).1.2
            (" " ++ rec.source.name ++ " (cont) "),
          OutputEvent.coloredText (getStyle st.cache rec.source).1.1
            (" " ++ rec.source.path),
          OutputEvent.lineBreak],
          by rw [writerStep_cont st rec h h2]; rfl⟩
      · exact ⟨[], by rw [writerStep_plain st rec h h2]; rfl⟩

/-- Witness for C2: the spec scenario, width 10 and the 12-character
line of a truncating source renders as its first 9 characters. -/
theorem claim2_truncation_witness :
    1 ≤ (10 : Nat) ∧
    renderBody 10 srcB "abcdefghijkl" = "abcdefghijkl".take 9 ∧
    "abcdefghijkl".take 9 = "abcdefghi" := by
  refine ⟨by norm_num, ?_, by decide⟩
  exact (claim2_truncation ⟨10, 3, none, 0, emptyCache⟩ ⟨srcB, "abcdefghijkl"⟩
    (by norm_num)).1 rfl (by decide)

/-- C3: the color assignment is deterministic: any sequence of getStyle
invocations starting from the empty caches returns, for every request,
exactly the pure computed pair of its source, so two invocations for
the same source configuration always agree, cached or not. -/
theorem claim3_deterministic (srcs : List Source) :
    (getStyleRun emptyCache srcs).1 = srcs.map computeStyle :=
  (getStyleRun_spec srcs emptyCache cacheWF_empty).1

/-- C4: with no configured foreground, the assigned foreground is black
when the perceived lightness of the chosen raw background ints is at
least 50, and white otherwise. -/
theorem claim4_foreground (src : Source) (h : src.foreground = none) :
    (50 ≤ perceivedLightness (chosenRGB src).1 (chosenRGB src).2.1 (chosenRGB src).2.2 →
      (computeStyle src).2.fg = ⟨0, 0, 0⟩) ∧
    (perceivedLightness (chosenRGB src).1 (chosenRGB src).2.1 (chosenRGB src).2.2 < 50 →
      (computeStyle src).2.fg = ⟨255, 255, 255⟩) := by
  rw [computeStyle_fg_none src h]
  constructor
  · intro h50
    rw [if_pos h50]
  · intro hlt
    rw [if_neg (not_le.mpr hlt)]

/-- Witness for C4: a black configured background has lightness 0, so
the foreground is white. -/
theorem claim4_foreground_witness :
    srcDark.foreground = none ∧ (computeStyle srcDark).2.fg = ⟨255, 255, 255⟩ := by
  refine ⟨rfl, ?_⟩
  apply (claim4_foreground srcDark rfl).2
  show perceivedLightness 0 0 0 < 50
  rw [pl_black]
  norm_num

/-- C5, counterexample: a configured background component 256 is
reduced modulo 256 by the uint8 conversion, so the primary color is
(0,0,0) rather than the configured triplet taken verbatim. -/
theorem claim5_counterexample :
    (computeStyle srcBig).1 = ⟨0, 0, 0⟩ ∧ (computeStyle srcBig).1 ≠ ⟨256, 0, 0⟩ :=
  ⟨by decide, by decide⟩

/-- C5, amended: with no explicit background the primary color and the
style background are the first three SHA-256 bytes of the path; with an
explicit background the configured triplet is used after reduction
modulo 256 of each component, which is verbatim exactly when every
component already lies in 0..255. -/
theorem claim5_amended :
    (∀ src : Source, src.background = none →
      (computeStyle src).1 = shaRGB src.path ∧
      (computeStyle src).2.bg = (computeStyle src).1) ∧
    (∀ (src : Source) (r g b : Int), src.background = some (r, g, b) →
      (computeStyle src).1 = ⟨u8 r, u8 g, u8 b⟩ ∧
      (computeStyle src).2.bg = (computeStyle src).1 ∧
      (0 ≤ r → r < 256 → 0 ≤ g → g < 256 → 0 ≤ b → b < 256 →
        (computeStyle src).1 = ⟨r.toNat, g.toNat, b.toNat⟩)) := by
  constructor
  · intro src h
    refine ⟨?_, computeStyle_bg src⟩
    rw [computeStyle_primary, chosenRGB_none src h]
    obtain ⟨h1, h2, h3⟩ := sha256First3_lt src.path
    show RGBColor.mk (u8 ((sha256First3 src.path).1 : Int))
      (u8 ((sha256First3 src.path).2.1 : Int))
      (u8 ((sha256First3 src.path).2.2 : Int)) = shaRGB src.path
    rw [u8_ofNat h1, u8_ofNat h2, u8_ofNat h3]
    rfl
  · intro src r g b h
    refine ⟨?_, computeStyle_bg src, ?_⟩
    · rw [computeStyle_primary, chosenRGB_some src (r, g, b) h]
    · intro hr1 hr2 hg1 hg2 hb1 hb2
      rw [computeStyle_primary, chosenRGB_some src (r, g, b) h]
      have e1 : u8 r = r.toNat := by simp only [u8]; omega
      have e2 : u8 g = g.toNat := by simp only [u8]; omega
      have e3 : u8 b = b.toNat := by simp only [u8]; omega
      show RGBColor.mk (u8 r) (u8 g) (u8 b) = _
      rw [e1, e2, e3]

/-- Witness for the amended C5: a hash-derived source and an in-range
explicit background. -/
theorem claim5_amended_witness :
    (srcHash.background = none ∧ (computeStyle srcHash).1 = shaRGB srcHash.path) ∧
    (srcA.background = some (10, 20, 30) ∧
      (computeStyle srcA).1 = ⟨(10 : Int).toNat, (20 : Int).toNat, (30 : Int).toNat⟩) := by
  refine ⟨⟨rfl, (claim5_amended.1 srcHash rfl).1⟩, ⟨rfl, ?_⟩⟩
  exact (claim5_amended.2 srcA 10 20 30 rfl).2.2 (by norm_num) (by norm_num)
    (by norm_num) (by norm_num) (by norm_num) (by norm_num)

/-- C6: perceived lightness is 0 on black, exactly 100 on white in the
real-number model, and monotone when all three integer channels
increase together. -/
theorem claim6_lightness :
    perceivedLightness 0 0 0 = 0 ∧ perceivedLightness 255 255 255 = 100 ∧
    ∀ r g b r' g' b' : Int, r ≤ r' → g ≤ g' → b ≤ b' →
      perceivedLightness r g b ≤ perceivedLightness r' g' b' :=
  ⟨pl_black, pl_white, fun _ _ _ _ _ _ hr hg hb => pl_mono hr hg hb⟩

/-- Witness for C6 at a concrete channel increase. -/
theorem claim6_lightness_witness :
    ((0 : Int) ≤ 255 ∧ (0 : Int) ≤ 128 ∧ (0 : Int) ≤ 7) ∧
    perceivedLightness 0 0 0 ≤ perceivedLightness 255 128 7 := by
  refine ⟨⟨by norm_num, by norm_num, by norm_num⟩, ?_⟩
  exact claim6_lightness.2.2 0 0 0 255 128 7 (by norm_num) (by norm_num) (by norm_num)

/-- C7: a record whose source differs from the last rendered source
prints the header: the space-padded name styled with the
foreground/background pair, then the space-prefixed path in the primary
color, then a line break, before the body; the streak resets to 1; and
after any record the last rendered source is the source of that
record. -/
theorem claim7_header_on_change :
    (∀ (st : WriterState) (rec : Record), st.lastSource ≠ some rec.source →
      (writerStep st rec).2 =
        [OutputEvent.styledText (getStyle st.cache rec.source).1.2
           (" " ++ rec.source.name ++ " "),
         OutputEvent.coloredText (getStyle st.cache rec.source).1.1
           (" " ++ rec.source.path),
         OutputEvent.lineBreak,
         OutputEvent.plainText (renderBody st.width rec.source rec.text),
         OutputEvent.lineBreak] ∧
      ((writerStep st rec).1).streak = 1) ∧
    (∀ (st : WriterState) (rec : Record),
      ((writerStep st rec).1).lastSource = some rec.source) := by
  constructor
  · intro st rec h
    rw [writerStep_new st rec h]
    exact ⟨rfl, rfl⟩
  · exact writerStep_lastSource

/-- Witness for C7 from the initial state. -/
theorem claim7_header_on_change_witness :
    st0.lastSource ≠ some srcA ∧
    (writerStep st0 ⟨srcA, "hello"⟩).2 =
      [OutputEvent.styledText (getStyle st0.cache srcA).1.2 (" " ++ srcA.name ++ " "),
       OutputEvent.coloredText (getStyle st0.cache srcA).1.1 (" " ++ srcA.path),
       OutputEvent.lineBreak,
       OutputEvent.plainText (renderBody st0.width srcA "hello"),
       OutputEvent.lineBreak] ∧
    ((writerStep st0 ⟨srcA, "hello"⟩).1).streak = 1 := by
  refine ⟨by decide, ?_⟩
  exact claim7_header_on_change.1 st0 ⟨srcA, "hello"⟩ (by decide)

/-- C8: once the stop signal is observed, the writer exits and prints
nothing further, however many records remain queued after it. -/
theorem claim8_stop :
    ∀ (pre : List WriterInput) (st : WriterState) (rest : List WriterInput),
      (∀ i ∈ pre, i ≠ WriterInput.stop) →
      writerLoop st (pre ++ WriterInput.stop :: rest) = writerLoop st pre := by
  intro pre
  induction pre with
  | nil =>
    intro st rest h
    rfl
  | cons i is ih =>
    intro st rest h
    cases i with
    | stop => exact absurd rfl (h WriterInput.stop (List.mem_cons_self _ _))
    | record r =>
      show (writerStep st r).2 ++
          writerLoop (writerStep st r).1 (is ++ WriterInput.stop :: rest) =
        (writerStep st r).2 ++ writerLoop (writerStep st r).1 is
      rw [ih (writerStep st r).1 rest (fun j hj => h j (List.mem_cons_of_mem _ hj))]

/-- Witness for C8: one record, then stop, then a queued record that is
never rendered. -/
theorem claim8_stop_witness :
    (∀ i ∈ [WriterInput.record ⟨srcA, "x"⟩], i ≠ WriterInput.stop) ∧
    writerLoop st0 ([WriterInput.record ⟨srcA, "x"⟩] ++
        WriterInput.stop :: [WriterInput.record ⟨srcB, "y"⟩]) =
      writerLoop st0 [WriterInput.record ⟨srcA, "x"⟩] := by
  have h : ∀ i ∈ [WriterInput.record ⟨srcA, "x"⟩], i ≠ WriterInput.stop := by
    intro i hi
    rw [List.mem_singleton] at hi
    subst hi
    decide
  exact ⟨h, claim8_stop [WriterInput.record ⟨srcA, "x"⟩] st0
    [WriterInput.record ⟨srcB, "y"⟩] h⟩

/-- C9: a configuration load error aborts the process before any source
is opened; a terminal-size query failure aborts the process; a source
that fails to open is skipped with one diagnostic while every source
that opens is processed. -/
theorem claim9_severity :
    (∀ (e : String) (openOk : Source → Bool) (ts : Option (Nat × Nat)),
      runMain (Except.error e) openOk ts = MainOutcome.fatalConfig e) ∧
    (∀ (c : Config) (openOk : Source → Bool),
      runMain (Except.ok c) openOk none = MainOutcome.fatalTermSize) ∧
    (∀ (c : Config) (openOk : Source → Bool) (ts : Nat × Nat),
      runMain (Except.ok c) openOk (some ts) =
        MainOutcome.running (c.sources.filter openOk)
          ((c.sources.filter fun s => ! openOk s).length)) ∧
    (∀ (c : Config) (openOk : Source → Bool) (s : Source), openOk s = false →
      s ∉ c.sources.filter openOk) ∧
    (∀ (c : Config) (openOk : Source → Bool) (s : Source),
      s ∈ c.sources → openOk s = true → s ∈ c.sources.filter openOk) := by
  refine ⟨fun e openOk ts => rfl, fun c openOk => rfl, ?_, ?_, ?_⟩
  · intro c openOk ts
    simp [runMain, openSources_eq]
  · intro c openOk s hf hmem
    rw [List.mem_filter] at hmem
    rw [hmem.2] at hf
    exact Bool.noConfusion hf
  · intro c openOk s hs hf
    exact List.mem_filter.mpr ⟨hs, hf⟩

/-- Witness for C9 on a concrete configuration with one failing
source. -/
theorem claim9_severity_witness :
    runMain (Except.error "no config") (fun _ => true) none =
      MainOutcome.fatalConfig "no config" ∧
    runMain (Except.ok ⟨[srcA, srcB]⟩) (fun s => s != srcB) (some (80, 24)) =
      MainOutcome.running ([srcA, srcB].filter fun s => s != srcB)
        (([srcA, srcB].filter fun s => ! (s != srcB)).length) ∧
    srcA ∈ [srcA, srcB].filter (fun s => s != srcB) := by
  refine ⟨claim9_severity.1 "no config" (fun _ => true) none,
    claim9_severity.2.2.1 ⟨[srcA, srcB]⟩ (fun s => s != srcB) (80, 24), ?_⟩
  exact claim9_severity.2.2.2.2 ⟨[srcA, srcB]⟩ (fun s => s != srcB) srcA
    (by decide) (by decide)

/-- C10: with an explicit background, the displayed primary and style
background use each component reduced modulo 256, while the default
foreground decision applies perceived lightness to the raw configured
ints; concretely, background (256,256,256) displays as black (0,0,0)
yet selects a black foreground, although the displayed black background
itself has lightness 0, below 50. -/
theorem claim10_mod256 :
    (∀ (src : Source) (r g b : Int), src.background = some (r, g, b) →
      src.foreground = none →
      (computeStyle src).1 = ⟨u8 r, u8 g, u8 b⟩ ∧
      (computeStyle src).2.bg = ⟨u8 r, u8 g, u8 b⟩ ∧
      ((computeStyle src).2.fg = ⟨0, 0, 0⟩ ↔ 50 ≤ perceivedLightness r g b)) ∧
    ((computeStyle srcOutOfRange).1 = ⟨0, 0, 0⟩ ∧
      (computeStyle srcOutOfRange).2.fg = ⟨0, 0, 0⟩ ∧
      perceivedLightness 0 0 0 < 50 ∧ 50 ≤ perceivedLightness 256 256 256) := by
  constructor
  · intro src r g b hbg hfg
    have hch := chosenRGB_some src (r, g, b) hbg
    refine ⟨?_, ?_, ?_⟩
    · rw [computeStyle_primary, hch]
    · rw [computeStyle_bg, computeStyle_primary, hch]
    · rw [computeStyle_fg_none src hfg, hch]
      constructor
      · intro he
        by_contra hcon
        rw [if_neg hcon] at he
        exact absurd he (by decide)
      · intro h50
        rw [if_pos h50]
  · refine ⟨by decide, ?_, ?_, pl_256⟩
    · rw [computeStyle_fg_none srcOutOfRange rfl]
      show (if 50 ≤ perceivedLightness 256 256 256 then (⟨0, 0, 0⟩ : RGBColor)
        else ⟨255, 255, 255⟩) = ⟨0, 0, 0⟩
      rw [if_pos pl_256]
    · rw [pl_black]
      norm_num

/-- Witness for C10 at the black explicit background. -/
theorem claim10_mod256_witness :
    (srcDark.background = some (0, 0, 0) ∧ srcDark.foreground = none) ∧
    (computeStyle srcDark).1 = ⟨u8 0, u8 0, u8 0⟩ ∧
    ((computeStyle srcDark).2.fg = ⟨0, 0, 0⟩ ↔ 50 ≤ perceivedLightness 0 0 0) := by
  refine ⟨⟨rfl, rfl⟩, ?_, ?_⟩
  · exact (claim10_mod256.1 srcDark 0 0 0 rfl rfl).1
  · exact (claim10_mod256.1 srcDark 0 0 0 rfl rfl).2.2

end Nexus
